import Mathlib

/-!
Shallow embedding of the spektar audio-spectrum pipeline (src/main.rs).

Machine floating-point (`f32`) values are modelled as exact rationals `ℚ`;
`Vec<f32>` and `VecDeque<Vec<f32>>` become Lean `List`s with the front of the
list playing the role of the head/oldest element.  Constants are taken from
the source: sample-buffer trim bound 4096, FFT frame size 1024,
`HISTORY_SIZE = 50`, `NUM_BANDS = 40`.
-/

namespace Spektar

/-- `HISTORY_SIZE` constant from src/main.rs. -/
def HISTORY_SIZE : ℕ := 50

/-- `NUM_BANDS` constant from src/main.rs. -/
def NUM_BANDS : ℕ := 40

/-- The sample-buffer trim bound (`4096` in the audio callbacks). -/
def SAMPLE_CAP : ℕ := 4096

/-- The FFT frame size drained in `update` (`1024` in src/main.rs:36-38). -/
def FRAME_SIZE : ℕ := 1024

/-- The last `n` elements of a list: `l.drop (l.length - n)`.  This is what a
Rust `drain(0..excess)` leaves behind when `excess = len - n`. -/
def lastN (n : ℕ) (l : List α) : List α := l.drop (l.length - n)

/-- Embedding of the audio-callback push body (src/main.rs:106-113):
`buffer.extend_from_slice(data); if buffer.len() > 4096 { let excess =
buffer.len() - 4096; buffer.drain(0..excess); }`. -/
def sample_buffer_push (data buf : List ℚ) : List ℚ :=
  let b := buf ++ data
  if b.length > SAMPLE_CAP then b.drop (b.length - SAMPLE_CAP) else b

/-- A whole sequence of callback pushes starting from a given buffer state. -/
def push_all (chunks : List (List ℚ)) (buf : List ℚ) : List ℚ :=
  chunks.foldl (fun b c => sample_buffer_push c b) buf

/-- Embedding of the frame-extraction step in `update` (src/main.rs:35-38):
`if buffer.len() >= n { let samples = buffer.drain(0..n).collect(); ... }`,
with the frame size `n` as a parameter (the source fixes `n = 1024`).
Returns the drained frame together with the remaining buffer, or `none`
(buffer untouched) when fewer than `n` samples are available. -/
def drain_frame (n : ℕ) (buf : List ℚ) : Option (List ℚ × List ℚ) :=
  if n ≤ buf.length then some (buf.take n, buf.drop n) else none

/-- Embedding of the history push in `update` (src/main.rs:58-63):
`spectrum_data.push_back(bands); if spectrum_data.len() > HISTORY_SIZE {
spectrum_data.pop_front(); }`.  The list front is the `VecDeque` front
(oldest frame). -/
def history_push (frame : List ℚ) (hist : List (List ℚ)) : List (List ℚ) :=
  let h := hist ++ [frame]
  if h.length > HISTORY_SIZE then h.drop 1 else h

/-- Pushing a whole sequence of band frames into an empty history. -/
def history_fold (frames : List (List ℚ)) : List (List ℚ) :=
  frames.foldl (fun h f => history_push f h) []

/-- The renderer's "current" frame: `spectrum_data.back()` (src/main.rs:175). -/
def history_current (hist : List (List ℚ)) : Option (List ℚ) :=
  hist.getLast?

/-- Rust `v.clamp(0.0, 1.0)` (src/main.rs:252). -/
def clamp01 (x : ℚ) : ℚ := min 1 (max 0 x)

/-- `start_idx` of band `i` (src/main.rs:242): `((i as f32 / num_bands as f32)
.powf(2.0) * spectrum_len as f32) as usize`; the `as usize` cast of a
non-negative value is the floor. -/
def band_start (L n i : ℕ) : ℕ := ⌊((i : ℚ) / (n : ℚ)) ^ 2 * (L : ℚ)⌋₊

/-- `end_idx` of band `i` (src/main.rs:243-244), including the `.min(spectrum_len)`. -/
def band_end (L n i : ℕ) : ℕ :=
  min ⌊(((i : ℚ) + 1) / (n : ℚ)) ^ 2 * (L : ℚ)⌋₊ L

/-- Embedding of `convert_spectrum_to_bands` (src/main.rs:233-257): bands start
as `vec![0.0; num_bands]`; on empty input they are returned as-is; otherwise
band `i` is set to `clamp(sum/(end-start), 0.0, 1.0)` of the magnitudes
(second tuple components) of `spectrum[start_idx..end_idx]` whenever
`start_idx < end_idx`. -/
def convert_spectrum_to_bands (spectrum : List (ℚ × ℚ)) (num_bands : ℕ) : List ℚ :=
  let L := spectrum.length
  if L = 0 then List.replicate num_bands 0 else
  (List.range num_bands).map fun i =>
    let s := band_start L num_bands i
    let e := band_end L num_bands i
    if s < e then
      clamp01 ((((spectrum.drop s).take (e - s)).map Prod.snd).sum / ((e - s : ℕ) : ℚ))
    else 0

/-- `alpha_step = 1.0 / HISTORY_SIZE as f32` (src/main.rs:200). -/
def alpha_step : ℚ := 1 / (HISTORY_SIZE : ℚ)

/-- The history fade weight (src/main.rs:202): `alpha = 0.5 * (1.0 -
(history_idx as f32 * alpha_step))`, where `history_idx` is the position in
the oldest-to-newest iteration of the history (`0` = oldest frame). -/
def fade_alpha (history_idx : ℕ) : ℚ := 1 / 2 * (1 - (history_idx : ℚ) * alpha_step)

/-- The renderer skip test (src/main.rs:203-204): `if alpha <= 0.05 { continue; }`. -/
def fade_skipped (history_idx : ℕ) : Bool :=
  decide (fade_alpha history_idx ≤ 1 / 20)

/-- The fade formula exactly as the spec sentence states it:
`fade = max(0, 0.5 * (1 - age / capacity))` where `age` is the frame's
distance from the tail (most recently pushed frame has age 0).  Kept separate
from `fade_alpha` so the two can be compared. -/
def spec_fade (age : ℕ) : ℚ := max 0 (1 / 2 * (1 - (age : ℚ) / (HISTORY_SIZE : ℚ)))

/-- The two lock-acquisition disciplines that appear in the source:
`std::sync::Mutex::lock` (blocks for an unbounded wait until the lock is
free; its `Err` case is poisoning, not contention) and
`std::sync::Mutex::try_lock` (returns immediately, failing under contention). -/
inductive LockAcquire
  | blocking
  | tryAcquire
  deriving DecidableEq

/-- Embedding of `sample_buffer.lock()` in the F32/I16/U16 audio-callback
closures (src/main.rs:106, 121, 136): a blocking acquisition. -/
def audio_callback_acquire : LockAcquire := LockAcquire.blocking

/-- Embedding of `self.sample_buffer.try_lock()` in `update` (src/main.rs:35):
a non-blocking acquisition, skipped on contention. -/
def update_acquire : LockAcquire := LockAcquire.tryAcquire

/-- Modelled from the spec: the spectral analysis performed by the external
`spectrum_analyzer` crate (`hann_window` + `samples_fft_to_spectrum`, called at
src/main.rs:41-47, not part of this repository).  Per spec §4.3 it applies a
window elementwise, takes a discrete Fourier transform (a linear map with
fixed coefficients), converts each complex output to a magnitude, assigns bin
frequency `k * sample_rate / transform_size`, and keeps bins whose frequency
lies in `[f_min, f_max]`.  The window coefficients, the real/imaginary DFT
matrix entries and the magnitude function involve transcendental constants, so
they are parameters here; the frequency filter and the linear structure are
explicit. -/
def analyze_spec (window : ℕ → ℚ) (cRe cIm : ℕ → ℕ → ℚ) (mag : ℚ → ℚ → ℚ)
    (sampleRate : ℕ) (fmin fmax : ℚ) (frame : List ℚ) : List (ℚ × ℚ) :=
  let N := frame.length
  let windowed := List.zipWith (fun j x => window j * x) (List.range N) frame
  ((List.range N).map fun (k : ℕ) =>
      (((k : ℚ) * (sampleRate : ℚ)) / (N : ℚ),
        mag (List.zipWith (fun j x => cRe k j * x) (List.range N) windowed).sum
          (List.zipWith (fun j x => cIm k j * x) (List.range N) windowed).sum)).filter
    fun b => decide (fmin ≤ b.1 ∧ b.1 ≤ fmax)

/-- The two pieces of state touched by one `update` tick (src/main.rs:34-67). -/
structure AppState where
  sample_buffer : List ℚ
  spectrum_data : List (List ℚ)
  deriving DecidableEq

/-- Embedding of the audio-processing part of `update` (src/main.rs:34-67),
with the fallible spectral analysis (`hann_window` + `samples_fft_to_spectrum`
+ the `(freq.val(), val.val())` conversion) abstracted as a parameter: when at
least 1024 samples are buffered they are drained unconditionally, then
analysis runs; only on `Ok` is a band frame computed and pushed into the
history. -/
def update_step (analyze : List ℚ → Except String (List (ℚ × ℚ)))
    (st : AppState) : AppState :=
  match drain_frame FRAME_SIZE st.sample_buffer with
  | none => st
  | some (samples, rest) =>
    match analyze samples with
    | Except.ok spectrum =>
      { sample_buffer := rest,
        spectrum_data :=
          history_push (convert_spectrum_to_bands spectrum NUM_BANDS) st.spectrum_data }
    | Except.error _ => { sample_buffer := rest, spectrum_data := st.spectrum_data }

end Spektar

namespace Spektar

theorem lastN_length (n : ℕ) (l : List α) : (lastN n l).length = min l.length n := by
  simp [lastN]; omega

theorem lastN_of_le (n : ℕ) (l : List α) (h : l.length ≤ n) : lastN n l = l := by
  simp [lastN, Nat.sub_eq_zero_of_le h]

theorem lastN_eq_reverse_take (n : ℕ) (l : List α) :
    lastN n l = (l.reverse.take n).reverse :=
  List.rtake_eq_reverse_take_reverse l n

/-- Taking the last `n` of `lastN n l ++ c` is the same as taking the last `n`
of `l ++ c`: stale samples beyond the window never matter. -/
theorem lastN_append_lastN (n : ℕ) (l c : List α) :
    lastN n (lastN n l ++ c) = lastN n (l ++ c) := by
  rw [lastN_eq_reverse_take, lastN_eq_reverse_take, lastN_eq_reverse_take,
    List.reverse_append, List.reverse_append, List.reverse_reverse,
    List.take_append_eq_append_take, List.take_append_eq_append_take,
    List.take_take]
  simp only [List.length_reverse]
  rw [Nat.min_eq_left (Nat.sub_le n c.length)]

/-- One callback push is exactly "keep the last 4096 of `buf ++ data`". -/
theorem sample_buffer_push_eq_lastN (data buf : List ℚ) :
    sample_buffer_push data buf = lastN SAMPLE_CAP (buf ++ data) := by
  unfold sample_buffer_push lastN
  by_cases h : (buf ++ data).length > SAMPLE_CAP
  · rw [if_pos h]
  · rw [if_neg h, Nat.sub_eq_zero_of_le (by omega), List.drop_zero]

theorem push_all_eq_lastN (chunks : List (List ℚ)) :
    ∀ buf : List ℚ, buf.length ≤ SAMPLE_CAP →
      push_all chunks buf = lastN SAMPLE_CAP (buf ++ chunks.flatten) := by
  induction chunks with
  | nil => intro buf h; simpa [push_all] using (lastN_of_le _ _ h).symm
  | cons c cs ih =>
    intro buf h
    have h1 : (sample_buffer_push c buf).length ≤ SAMPLE_CAP := by
      rw [sample_buffer_push_eq_lastN, lastN_length]; omega
    calc push_all (c :: cs) buf = push_all cs (sample_buffer_push c buf) := rfl
      _ = lastN SAMPLE_CAP (sample_buffer_push c buf ++ cs.flatten) := ih _ h1
      _ = lastN SAMPLE_CAP (lastN SAMPLE_CAP (buf ++ c) ++ cs.flatten) := by
          rw [sample_buffer_push_eq_lastN]
      _ = lastN SAMPLE_CAP ((buf ++ c) ++ cs.flatten) := lastN_append_lastN _ _ _
      _ = lastN SAMPLE_CAP (buf ++ (c :: cs).flatten) := by simp

/-- The last element survives taking the last `n`, for `n > 0`. -/
theorem lastN_getLast? (n : ℕ) (l : List α) (hn : 0 < n) (hl : l ≠ []) :
    (lastN n l).getLast? = l.getLast? := by
  have hlen : 0 < l.length := List.length_pos.mpr hl
  have h1 : l.drop (l.length - n) ≠ [] := by
    intro hcon
    have h2 := congrArg List.length hcon
    simp only [List.length_drop, List.length_nil] at h2
    omega
  have h2 := List.getLast?_append_of_ne_nil (l.take (l.length - n)) h1
  rw [List.take_append_drop] at h2
  exact h2.symm

/-- One history push on an in-capacity history is "keep the last 50 of
`hist ++ [frame]`". -/
theorem history_push_eq_lastN (f : List ℚ) (hist : List (List ℚ))
    (h : hist.length ≤ HISTORY_SIZE) :
    history_push f hist = lastN HISTORY_SIZE (hist ++ [f]) := by
  unfold history_push lastN
  by_cases h1 : (hist ++ [f]).length > HISTORY_SIZE
  · rw [if_pos h1]
    congr 1
    simp only [List.length_append, List.length_singleton] at h1 ⊢
    omega
  · rw [if_neg h1, Nat.sub_eq_zero_of_le (by omega), List.drop_zero]

theorem history_fold_eq_lastN (frames : List (List ℚ)) :
    ∀ hist : List (List ℚ), hist.length ≤ HISTORY_SIZE →
      frames.foldl (fun h f => history_push f h) hist =
        lastN HISTORY_SIZE (hist ++ frames) := by
  induction frames with
  | nil => intro hist h; simpa using (lastN_of_le _ _ h).symm
  | cons f fs ih =>
    intro hist h
    have h1 : (history_push f hist).length ≤ HISTORY_SIZE := by
      rw [history_push_eq_lastN f hist h, lastN_length]; omega
    calc (f :: fs).foldl (fun h f => history_push f h) hist
        = fs.foldl (fun h f => history_push f h) (history_push f hist) := rfl
      _ = lastN HISTORY_SIZE (history_push f hist ++ fs) := ih _ h1
      _ = lastN HISTORY_SIZE (lastN HISTORY_SIZE (hist ++ [f]) ++ fs) := by
          rw [history_push_eq_lastN f hist h]
      _ = lastN HISTORY_SIZE ((hist ++ [f]) ++ fs) := lastN_append_lastN _ _ _
      _ = lastN HISTORY_SIZE (hist ++ f :: fs) := by simp

end Spektar

/-- C1: starting from an empty `SampleBuffer`, after any sequence of callback
pushes the buffer holds exactly the last `min (total pushed) 4096` samples in
arrival order (FIFO eviction), so in particular its length never exceeds the
capacity 4096.  Quantifying over all push sequences covers the state after
each individual push. -/
theorem C1_sample_buffer_fifo_window (chunks : List (List ℚ)) :
    Spektar.push_all chunks [] =
        (chunks.flatten).drop (chunks.flatten.length - Spektar.SAMPLE_CAP) ∧
      (Spektar.push_all chunks []).length =
        min chunks.flatten.length Spektar.SAMPLE_CAP ∧
      (Spektar.push_all chunks []).length ≤ Spektar.SAMPLE_CAP := by
  have h := Spektar.push_all_eq_lastN chunks [] (by simp [Spektar.SAMPLE_CAP])
  simp only [List.nil_append] at h
  refine ⟨h, ?_, ?_⟩
  · rw [h, Spektar.lastN_length]
  · rw [h, Spektar.lastN_length]; omega

/-- C3: `convert_spectrum_to_bands` returns exactly `num_bands` values for
every input, including the empty bin list, and the empty input yields the
all-zero band frame. -/
theorem C3_band_count_invariant (bins : List (ℚ × ℚ)) (n : ℕ) :
    (Spektar.convert_spectrum_to_bands bins n).length = n ∧
      Spektar.convert_spectrum_to_bands [] n = List.replicate n 0 := by
  constructor
  · unfold Spektar.convert_spectrum_to_bands
    by_cases h : bins.length = 0 <;> simp [h]
  · unfold Spektar.convert_spectrum_to_bands
    simp

/-- C4: with fewer than `n` buffered samples `drain_frame` yields nothing and
the buffer is unchanged; with at least `n` it removes and returns exactly the
first `n` samples (oldest first), the rest of the buffer surviving intact. -/
theorem C4_drain_frame_contract (buf : List ℚ) (n : ℕ) :
    (buf.length < n → Spektar.drain_frame n buf = none) ∧
      (n ≤ buf.length →
        Spektar.drain_frame n buf = some (buf.take n, buf.drop n) ∧
          (buf.take n).length = n ∧ buf.take n ++ buf.drop n = buf) := by
  constructor
  · intro h; unfold Spektar.drain_frame; rw [if_neg (by omega)]
  · intro h
    refine ⟨?_, by simp only [List.length_take]; omega, List.take_append_drop n buf⟩
    unfold Spektar.drain_frame; rw [if_pos h]

theorem C4_drain_frame_contract_witness :
    Spektar.drain_frame 5 [1, 2, 3] = none ∧
      Spektar.drain_frame 2 [1, 2, 3] = some ([1, 2], [3]) :=
  ⟨(C4_drain_frame_contract [1, 2, 3] 5).1 (by decide),
    ((C4_drain_frame_contract [1, 2, 3] 2).2 (by decide)).1⟩

/-- C5: pushing more than `HISTORY_SIZE = 50` band frames into an empty
history retains exactly the last 50 frames in their original chronological
order (the fold result is a suffix of the pushed sequence), and `current`
(`back()`) is the most recently pushed frame. -/
theorem C5_history_window (frames : List (List ℚ))
    (h : Spektar.HISTORY_SIZE < frames.length) :
    Spektar.history_fold frames = frames.drop (frames.length - Spektar.HISTORY_SIZE) ∧
      (Spektar.history_fold frames).length = Spektar.HISTORY_SIZE ∧
      Spektar.history_current (Spektar.history_fold frames) = frames.getLast? := by
  have hf : Spektar.history_fold frames = Spektar.lastN Spektar.HISTORY_SIZE frames := by
    have h0 := Spektar.history_fold_eq_lastN frames [] (by simp)
    simpa [Spektar.history_fold] using h0
  refine ⟨hf, ?_, ?_⟩
  · rw [hf, Spektar.lastN_length]; omega
  · rw [Spektar.history_current, hf]
    exact Spektar.lastN_getLast? _ _ (by norm_num [Spektar.HISTORY_SIZE])
      (List.length_pos.mp (by omega))

theorem C5_history_window_witness :
    Spektar.HISTORY_SIZE < (List.replicate 51 ([] : List ℚ)).length ∧
      Spektar.history_current (Spektar.history_fold (List.replicate 51 ([] : List ℚ))) =
        (List.replicate 51 ([] : List ℚ)).getLast? :=
  ⟨by decide, (C5_history_window _ (by decide)).2.2⟩

namespace Spektar

theorem clamp01_nonneg (x : ℚ) : 0 ≤ clamp01 x :=
  le_min (by norm_num) (le_max_left 0 x)

theorem clamp01_le_one (x : ℚ) : clamp01 x ≤ 1 :=
  min_le_left _ _

/-- Band `i` of `convert_spectrum_to_bands`, read through `getD`, follows the
start/end/clamp recipe for every input (the empty-input early return included,
since there `band_end = 0` makes every range degenerate). -/
theorem convert_spectrum_getD (bins : List (ℚ × ℚ)) (n i : ℕ) (h : i < n) :
    (convert_spectrum_to_bands bins n).getD i 0 =
      if band_start bins.length n i < band_end bins.length n i then
        clamp01
          ((((bins.drop (band_start bins.length n i)).take
                (band_end bins.length n i - band_start bins.length n i)).map
              Prod.snd).sum /
            ((band_end bins.length n i - band_start bins.length n i : ℕ) : ℚ))
      else 0 := by
  by_cases hL : bins.length = 0
  · obtain rfl := List.length_eq_zero.mp hL
    have hconv : convert_spectrum_to_bands [] n = List.replicate n 0 := rfl
    rw [hconv]
    have h1 : (List.replicate n (0 : ℚ)).getD i 0 = 0 := by
      rcases lt_or_ge i n with hi | hi
      · rw [List.getD_eq_getElem _ _ (by simpa using hi)]
        simp
      · exact List.getD_eq_default _ _ (by simpa using hi)
    rw [h1, eq_comm, if_neg]
    simp [band_end]
  · simp only [convert_spectrum_to_bands]
    rw [if_neg hL]
    rw [List.getD_eq_getElem _ _ (by simpa using h)]
    simp only [List.getElem_map, List.getElem_range]

end Spektar

/-- C2: for band `i < num_bands`, `convert_spectrum_to_bands` uses
`start = floor((i/num_bands)^2 * L)` and `end = min(floor(((i+1)/num_bands)^2 * L), L)`;
the band value is 0 when `start ≥ end` and otherwise the clamp to `[0, 1]` of
the mean magnitude over `bins[start..end)`; consequently the band value always
lies in `[0, 1]`. -/
theorem C2_band_mapper_formula (bins : List (ℚ × ℚ)) (n i : ℕ) (h : i < n) :
    Spektar.band_start bins.length n i =
        ⌊((i : ℚ) / (n : ℚ)) ^ 2 * (bins.length : ℚ)⌋₊ ∧
      Spektar.band_end bins.length n i =
        min ⌊(((i : ℚ) + 1) / (n : ℚ)) ^ 2 * (bins.length : ℚ)⌋₊ bins.length ∧
      (Spektar.convert_spectrum_to_bands bins n).getD i 0 =
        (if Spektar.band_start bins.length n i < Spektar.band_end bins.length n i then
          Spektar.clamp01
            ((((bins.drop (Spektar.band_start bins.length n i)).take
                  (Spektar.band_end bins.length n i - Spektar.band_start bins.length n i)).map
                Prod.snd).sum /
              ((Spektar.band_end bins.length n i - Spektar.band_start bins.length n i : ℕ) : ℚ))
        else 0) ∧
      0 ≤ (Spektar.convert_spectrum_to_bands bins n).getD i 0 ∧
      (Spektar.convert_spectrum_to_bands bins n).getD i 0 ≤ 1 := by
  have key := Spektar.convert_spectrum_getD bins n i h
  refine ⟨rfl, rfl, key, ?_, ?_⟩
  · rw [key]; split
    · exact Spektar.clamp01_nonneg _
    · exact le_refl 0
  · rw [key]; split
    · exact Spektar.clamp01_le_one _
    · norm_num

theorem C2_band_mapper_formula_witness :
    1 < 2 ∧
      0 ≤ (Spektar.convert_spectrum_to_bands [(1, 3), (2, 5)] 2).getD 1 0 ∧
      (Spektar.convert_spectrum_to_bands [(1, 3), (2, 5)] 2).getD 1 0 ≤ 1 :=
  ⟨by norm_num, (C2_band_mapper_formula [(1, 3), (2, 5)] 2 1 (by norm_num)).2.2.2⟩

/-- C9: the slice taken by `convert_spectrum_to_bands` is always in bounds
(`end ≤ L` thanks to the `.min(spectrum_len)`, so the slice really has
`end - start` elements) and the divisor `end - start` is strictly positive —
hence nonzero as a rational — whenever the `start < end` guard admits it, for
every input and every band index. -/
theorem C9_band_slice_safety (bins : List (ℚ × ℚ)) (n i : ℕ) :
    Spektar.band_end bins.length n i ≤ bins.length ∧
      (Spektar.band_start bins.length n i < Spektar.band_end bins.length n i →
        ((bins.drop (Spektar.band_start bins.length n i)).take
              (Spektar.band_end bins.length n i - Spektar.band_start bins.length n i)).length =
            Spektar.band_end bins.length n i - Spektar.band_start bins.length n i ∧
          0 < Spektar.band_end bins.length n i - Spektar.band_start bins.length n i ∧
          ((Spektar.band_end bins.length n i - Spektar.band_start bins.length n i : ℕ) : ℚ) ≠ 0) := by
  have he : Spektar.band_end bins.length n i ≤ bins.length := Nat.min_le_right _ _
  refine ⟨he, fun hlt => ⟨?_, by omega, ?_⟩⟩
  · simp only [List.length_take, List.length_drop]
    omega
  · exact Nat.cast_ne_zero.mpr (by omega)

theorem C9_band_slice_safety_witness :
    Spektar.band_start (List.replicate 10 ((0 : ℚ), (0 : ℚ))).length 2 1 <
        Spektar.band_end (List.replicate 10 ((0 : ℚ), (0 : ℚ))).length 2 1 ∧
      ((Spektar.band_end (List.replicate 10 ((0 : ℚ), (0 : ℚ))).length 2 1 -
          Spektar.band_start (List.replicate 10 ((0 : ℚ), (0 : ℚ))).length 2 1 : ℕ) : ℚ) ≠ 0 := by
  have hs : Spektar.band_start (List.replicate 10 ((0 : ℚ), (0 : ℚ))).length 2 1 = 2 := by
    simp only [Spektar.band_start, List.length_replicate]
    rw [Nat.floor_eq_iff (by positivity)]
    norm_num
  have he : Spektar.band_end (List.replicate 10 ((0 : ℚ), (0 : ℚ))).length 2 1 = 10 := by
    have hf : ((((1 : ℕ) : ℚ) + 1) / ((2 : ℕ) : ℚ)) ^ 2 * ((10 : ℕ) : ℚ) = 10 := by
      norm_num
    simp only [Spektar.band_end, List.length_replicate, hf]
    norm_num
  have hlt : Spektar.band_start (List.replicate 10 ((0 : ℚ), (0 : ℚ))).length 2 1 <
      Spektar.band_end (List.replicate 10 ((0 : ℚ), (0 : ℚ))).length 2 1 := by
    rw [hs, he]; norm_num
  exact ⟨hlt, ((C9_band_slice_safety (List.replicate 10 ((0 : ℚ), (0 : ℚ))) 2 1).2 hlt).2.2⟩

namespace Spektar

/-- Pointwise products against an all-zero list vanish. -/
theorem zipWith_mul_replicate_zero (f : ℕ → ℚ) (l : List ℕ) (n : ℕ) :
    List.zipWith (fun j x => f j * x) l (List.replicate n (0 : ℚ)) =
      List.replicate (min l.length n) 0 := by
  induction l generalizing n with
  | nil => simp
  | cons a l ih =>
    cases n with
    | zero => simp
    | succ m =>
      simp only [List.replicate_succ, List.zipWith_cons_cons, mul_zero, ih,
        List.length_cons, Nat.succ_min_succ]

/-- If every bin magnitude is zero, the band mapper returns all zeros. -/
theorem convert_all_zero (bins : List (ℚ × ℚ)) (n : ℕ)
    (hz : ∀ p ∈ bins, Prod.snd p = 0) :
    convert_spectrum_to_bands bins n = List.replicate n 0 := by
  by_cases hL : bins.length = 0
  · obtain rfl := List.length_eq_zero.mp hL
    rfl
  · simp only [convert_spectrum_to_bands, if_neg hL]
    rw [List.eq_replicate_iff]
    refine ⟨by simp, ?_⟩
    intro b hb
    simp only [List.mem_map, List.mem_range] at hb
    obtain ⟨i, hi, rfl⟩ := hb
    split
    · have hsum : (((bins.drop (band_start bins.length n i)).take
          (band_end bins.length n i - band_start bins.length n i)).map Prod.snd).sum = 0 := by
        apply List.sum_eq_zero
        intro x hx
        simp only [List.mem_map] at hx
        obtain ⟨p, hp, rfl⟩ := hx
        exact hz p (List.mem_of_mem_drop (List.mem_of_mem_take hp))
      rw [hsum, zero_div]
      norm_num [clamp01]
    · rfl

/-- Every bin the (spec-modelled) analyzer produces from a silent frame has
magnitude zero, for any window, any DFT coefficients, and any magnitude
function that sends the zero complex value to zero. -/
theorem analyze_spec_silence (window : ℕ → ℚ) (cRe cIm : ℕ → ℕ → ℚ)
    (mag : ℚ → ℚ → ℚ) (hmag : mag 0 0 = 0) (sr N : ℕ) (fmin fmax : ℚ) :
    ∀ p ∈ analyze_spec window cRe cIm mag sr fmin fmax (List.replicate N (0 : ℚ)),
      p.2 = 0 := by
  intro p hp
  have hw : List.zipWith (fun j x => window j * x) (List.range N)
      (List.replicate N (0 : ℚ)) = List.replicate N (0 : ℚ) := by
    rw [zipWith_mul_replicate_zero, List.length_range, min_self]
  simp only [analyze_spec, List.length_replicate, hw] at hp
  obtain ⟨hmem, -⟩ := List.mem_filter.mp hp
  obtain ⟨k, -, rfl⟩ := List.mem_map.mp hmem
  show mag _ _ = 0
  simp only [zipWith_mul_replicate_zero, List.length_range, min_self,
    List.sum_replicate, smul_zero]
  exact hmag

end Spektar

/-- C6: a silent (all-zero) 1024-sample frame pushed end-to-end through the
pipeline — windowing (any coefficients), the discrete Fourier transform (any
linear coefficients), magnitudes (any function with `mag 0 0 = 0`), the
20–20000 Hz filter at 44100 Hz, and the 40-band mapper — produces the all-zero
band frame; every stage is total, so no error is raised. -/
theorem C6_silence_end_to_end (window : ℕ → ℚ) (cRe cIm : ℕ → ℕ → ℚ)
    (mag : ℚ → ℚ → ℚ) (hmag : mag 0 0 = 0) :
    Spektar.convert_spectrum_to_bands
        (Spektar.analyze_spec window cRe cIm mag 44100 20 20000 (List.replicate 1024 0))
        Spektar.NUM_BANDS =
      List.replicate Spektar.NUM_BANDS 0 := by
  apply Spektar.convert_all_zero
  intro p hp
  exact Spektar.analyze_spec_silence window cRe cIm mag hmag 44100 1024 20 20000 p hp

theorem C6_silence_end_to_end_witness :
    (fun a b => a + b : ℚ → ℚ → ℚ) 0 0 = 0 ∧
      Spektar.convert_spectrum_to_bands
          (Spektar.analyze_spec (fun _ => 0) (fun _ _ => 0) (fun _ _ => 0)
            (fun a b => a + b) 44100 20 20000 (List.replicate 1024 0))
          Spektar.NUM_BANDS =
        List.replicate Spektar.NUM_BANDS 0 :=
  ⟨by norm_num, C6_silence_end_to_end _ _ _ _ (by norm_num)⟩

/-- C7 counterexample: the claim puts age 0 (hence fade `0.5`) on the most
recently pushed frame, but the renderer indexes the history oldest-to-newest.
In a history of length 2 the newest frame sits at iteration index 1, where the
code computes `0.5 * (1 - 1/50) = 49/100`, not `max 0 (0.5 * (1 - 0/50)) = 1/2`
as the claim's age-from-the-tail formula requires. -/
theorem C7_fade_counterexample :
    Spektar.fade_alpha 1 ≠ Spektar.spec_fade (2 - 1 - 1) ∧
      Spektar.fade_alpha 1 = 49 / 100 ∧ Spektar.spec_fade (2 - 1 - 1) = 1 / 2 := by
  norm_num [Spektar.fade_alpha, Spektar.spec_fade, Spektar.alpha_step, Spektar.HISTORY_SIZE]

/-- C7 amended: the fade weight the renderer applies at oldest-to-newest
iteration index `idx` (every index that can occur, as the history holds at
most 50 frames) equals `max(0, 0.5 * (1 - idx / capacity))` — the claim's
formula with age measured from the head (oldest frame has age 0), not from the
tail — and a frame is skipped exactly when its fade is ≤ 0.05. -/
theorem C7_fade_amended (idx : ℕ) (h : idx < Spektar.HISTORY_SIZE) :
    Spektar.fade_alpha idx =
        max 0 (1 / 2 * (1 - (idx : ℚ) / (Spektar.HISTORY_SIZE : ℚ))) ∧
      (Spektar.fade_skipped idx = true ↔ Spektar.fade_alpha idx ≤ 1 / 20) := by
  have h50 : idx < 50 := h
  have hle : (idx : ℚ) ≤ 50 := by exact_mod_cast h50.le
  constructor
  · have h1 : (idx : ℚ) / (Spektar.HISTORY_SIZE : ℚ) ≤ 1 := by
      rw [div_le_one (by norm_num [Spektar.HISTORY_SIZE])]
      simpa [Spektar.HISTORY_SIZE] using hle
    rw [max_eq_right (by linarith)]
    simp only [Spektar.fade_alpha, Spektar.alpha_step, mul_one_div]
  · simp [Spektar.fade_skipped]

theorem C7_fade_amended_witness :
    3 < Spektar.HISTORY_SIZE ∧
      Spektar.fade_alpha 3 =
        max 0 (1 / 2 * (1 - ((3 : ℕ) : ℚ) / (Spektar.HISTORY_SIZE : ℚ))) :=
  ⟨by norm_num [Spektar.HISTORY_SIZE],
    (C7_fade_amended 3 (by norm_num [Spektar.HISTORY_SIZE])).1⟩

/-- C8 counterexample: the sample-buffer acquisition in the audio-hardware
callback is `Mutex::lock` — a blocking, unbounded-wait acquisition — not the
non-blocking / bounded-wait acquisition the claim asserts. -/
theorem C8_callback_lock_counterexample :
    Spektar.audio_callback_acquire ≠ Spektar.LockAcquire.tryAcquire ∧
      Spektar.audio_callback_acquire = Spektar.LockAcquire.blocking :=
  ⟨by decide, rfl⟩

/-- C8 amended: the callback side pushes under a blocking `lock()` (skipping
only if the mutex is poisoned), while the try-acquire skip-on-contention
discipline the claim describes is found on the consumer side: `update` drains
under `try_lock()`. -/
theorem C8_lock_disciplines :
    Spektar.audio_callback_acquire = Spektar.LockAcquire.blocking ∧
      Spektar.update_acquire = Spektar.LockAcquire.tryAcquire :=
  ⟨rfl, rfl⟩

/-- C10: when at least 1024 samples are buffered but the spectral analysis of
the drained frame reports an error, the tick pushes no band frame — the
history is exactly unchanged — while the 1024 drained samples are permanently
discarded: the buffer keeps only the remainder, and the drained samples are
not restored. -/
theorem C10_analysis_error_discards_frame
    (analyze : List ℚ → Except String (List (ℚ × ℚ))) (st : Spektar.AppState)
    (e : String) (hlen : Spektar.FRAME_SIZE ≤ st.sample_buffer.length)
    (herr : analyze (st.sample_buffer.take Spektar.FRAME_SIZE) = Except.error e) :
    Spektar.update_step analyze st =
      { sample_buffer := st.sample_buffer.drop Spektar.FRAME_SIZE,
        spectrum_data := st.spectrum_data } := by
  simp only [Spektar.update_step, Spektar.drain_frame, if_pos hlen, herr]

theorem C10_analysis_error_discards_frame_witness :
    Spektar.FRAME_SIZE ≤ (List.replicate 1024 (0 : ℚ)).length ∧
      Spektar.update_step (fun _ => Except.error "fft failed")
          { sample_buffer := List.replicate 1024 0, spectrum_data := [[1]] } =
        { sample_buffer := (List.replicate 1024 (0 : ℚ)).drop 1024,
          spectrum_data := [[1]] } :=
  ⟨by rw [List.length_replicate]; decide,
    C10_analysis_error_discards_frame (fun _ => Except.error "fft failed")
      { sample_buffer := List.replicate 1024 0, spectrum_data := [[1]] } "fft failed"
      (by rw [List.length_replicate]; decide) rfl⟩
